import Mathlib

set_option maxHeartbeats 1600000

/-! Shallow embedding of the fortunes crate (Fortune sweep-line Voronoi
diagrams).  Coordinates are rationals; the f64 square root is modelled by
sqrtQ, which is exact on rationals whose numerator and denominator are
perfect squares (every concrete evaluation below only reaches such values,
or branches where the result is irrelevant).  Rust panics (unwrap, expect,
assert, explicit panic, out-of-range indexing) and fuel exhaustion of the
pointer-chasing loops are modelled by Option.none. -/

/-- Point with rational coordinates (source: geometry.rs, struct Point over
OrderedFloat of f64). -/
structure Point where
  x : ℚ
  y : ℚ
  deriving DecidableEq, Repr

/-- Componentwise addition (source: impl Add for Point). -/
def Point.add (a b : Point) : Point := ⟨a.x + b.x, a.y + b.y⟩

/-- Componentwise subtraction (source: impl Sub for Point). -/
def Point.sub (a b : Point) : Point := ⟨a.x - b.x, a.y - b.y⟩

/-- Scalar multiplication (source: impl Mul of OrderedFloat for Point). -/
def Point.smul (p : Point) (c : ℚ) : Point := ⟨p.x * c, p.y * c⟩

/-- A finished Voronoi edge, an (ordered in the embedding) pair of endpoints
(source: pub type Segment = array of two Points). -/
abbrev Segment := Point × Point

/-- Clip region (source: struct BoundingBox). -/
structure BoundingBox where
  x_min : ℚ
  x_max : ℚ
  y_min : ℚ
  y_max : ℚ
  deriving DecidableEq, Repr

/-- Newton iteration for the integer square root, the same recurrence as
Nat.sqrt.iter but with structural fuel so that the kernel can evaluate it. -/
def isqrtIter : ℕ → ℕ → ℕ → ℕ
  | 0, _, guess => guess
  | fuel + 1, n, guess =>
    let next := (guess + n / guess) / 2
    if next < guess then isqrtIter fuel n next else guess

/-- Integer square root (floor), mirroring Nat.sqrt; 64 Newton steps exceed
the convergence bound for every value reached in this file. -/
def isqrtN (n : ℕ) : ℕ := if n ≤ 1 then n else isqrtIter 64 n (n / 2)

/-- Model of f64::sqrt on rationals: exact when the numerator and denominator
are perfect squares, floor-like otherwise (never negative).  All square roots
on which a result below depends are exact. -/
def sqrtQ (q : ℚ) : ℚ := (isqrtN q.num.toNat : ℚ) / (isqrtN q.den : ℚ)

/-- Model of f64::signum on non-NaN values other than -0.0: 1 for
positive values and +0.0, -1 for negative values.  The sign of the -0.0
that the source can produce inside intersection is supplied by signumF. -/
def signumQ (q : ℚ) : ℚ := if q < 0 then -1 else 1

/-- f64 signum of a quotient q = n / det with det nonzero, as the source
computes the ray scalars u and v inside intersection.  f64 distinguishes
-0.0 (signum -1.0) from +0.0 (signum 1.0); the numerator n there is a
subtraction of finite products, so when it vanishes it is +0.0 and the
quotient is -0.0 exactly when det is negative.  A nonzero quotient carries
its ordinary sign. -/
def signumF (q det : ℚ) : ℚ := if q = 0 then signumQ det else signumQ q

/-- Source: geometry.rs, point_on_arc_at_x.  The point of the parabola with
the given focus and directrix y = yl above the abscissa x; when the focus
lies on the directrix the source returns the midpoint abscissa paired with
yl. -/
def point_on_arc_at_x (focus : Point) (yl x : ℚ) : Point :=
  let xf := focus.x
  let yf := focus.y
  let dx := x - xf
  let dx2 := dx * dx
  let dy := yf - yl
  if dy = 0 then
    ⟨(focus.x + x) / 2, yl⟩
  else
    ⟨x, dx2 / (dy * 2) + (yf + yl) / 2⟩

/-- Source: geometry.rs, normal_vector: 90 degree rotation. -/
def normal_vector (point : Point) : Point := ⟨-point.y, point.x⟩

/-- Source: geometry.rs, circumcenter.  The Rust function panics when the
determinant of the perpendicular-bisector system vanishes; the panic is
modelled as none. -/
def circumcenter (a b c : Point) : Option Point :=
  let x1 := a.x
  let y1 := a.y
  let x2 := b.x
  let y2 := b.y
  let x3 := c.x
  let y3 := c.y
  let c1 := x3 * x3 + y3 * y3 - x1 * x1 - y1 * y1
  let c2 := x3 * x3 + y3 * y3 - x2 * x2 - y2 * y2
  let a1 := (x1 - x3) * (-2)
  let a2 := (x2 - x3) * (-2)
  let b1 := (y1 - y3) * (-2)
  let b2 := (y2 - y3) * (-2)
  let numer := c1 * a2 - c2 * a1
  let denom := b1 * a2 - b2 * a1
  if denom = 0 then
    none
  else
    let y_cen := numer / denom
    let x_cen := if a2 ≠ 0 then (c2 - b2 * y_cen) / a2 else (c1 - b1 * y_cen) / a1
    some ⟨x_cen, y_cen⟩

/-- Source: geometry.rs, intersection of two rays; none when the directions
are parallel or the parametric scalars differ in sign. -/
def intersection (ao ad bo bd : Point) : Option Point :=
  let dx := bo.x - ao.x
  let dy := bo.y - ao.y
  let det := bd.x * ad.y - bd.y * ad.x
  if det = 0 then
    none
  else
    let u := (dy * bd.x - dx * bd.y) / det
    let v := (dy * ad.x - dx * ad.y) / det
    if signumF u det ≠ signumF v det then none
    else some (Point.add (Point.smul ad u) ao)

/-- Source: geometry.rs, distance (Euclidean, via the sqrt model). -/
def distance (a b : Point) : ℚ :=
  let dx := a.x - b.x
  let dy := a.y - b.y
  sqrtQ (dx * dx + dy * dy)

/-- Source: geometry.rs, breakpoint_at_x: abscissa where the parabolas of
foci l and r with directrix y = yl cross (closed-form quadratic); midpoint
when the denominator vanishes. -/
def breakpoint_at_x (l r : Point) (yl : ℚ) : ℚ :=
  let ax := l.x
  let bx := r.x
  let ay := l.y
  let by2 := r.y
  let bx_s := bx - ax
  let ay_s := ay - yl
  let by_s := by2 - yl
  let discrim := ay_s * by_s * ((ay_s - by_s) * (ay_s - by_s) + bx_s * bx_s)
  let numer := ay_s * bx_s - sqrtQ discrim
  let denom := ay_s - by_s
  let x_bp := if denom ≠ 0 then numer / denom else bx_s / 2
  x_bp + ax

/-- Source: geometry.rs, bounded_segment: clip the ray from origin along
direction to the bounding box, taking the nearer of the per-axis wall hits;
an axis with zero direction component is excluded. -/
def bounded_segment (origin direction : Point) (bounding_box : BoundingBox) : Segment :=
  let x_min := bounding_box.x_min
  let x_max := bounding_box.x_max
  let y_min := bounding_box.y_min
  let y_max := bounding_box.y_max
  let x := origin.x
  let y := origin.y
  let dx := direction.x
  let dy := direction.y
  let cx : ℚ := if dx = 0 then 0 else if dx < 0 then (x_min - x) / dx else (x_max - x) / dx
  let cy : ℚ := if dy = 0 then 0 else if dy < 0 then (y_min - y) / dy else (y_max - y) / dy
  let c : ℚ := if dx = 0 then cy else if dy = 0 then cx else min cx cy
  let destination : Point := ⟨x + c * dx, y + c * dy⟩
  (origin, destination)

/-- Source: lib.rs, enum Event: a Site event carries the site, a Circle
event carries the arena index of the arc it would remove. -/
inductive Event where
  | Site (p : Point)
  | Circle (arcIdx : ℕ)
  deriving DecidableEq, Repr

/-- Model of the priority_queue crate's PriorityQueue as an association list.
push and remove follow the crate exactly (push updates the priority of an
already-present event, otherwise appends); pop returns a maximum-priority
entry, resolving ties to the earliest-pushed entry, a deterministic
refinement of the crate's unspecified tie order. -/
abbrev EventQueue := List (Event × ℚ)

/-- Source: PriorityQueue::push — update the priority if present, else
insert. -/
def EQpush (q : EventQueue) (e : Event) (pri : ℚ) : EventQueue :=
  if q.any (fun ep => ep.1 = e) then
    q.map (fun ep => if ep.1 = e then (e, pri) else ep)
  else
    q ++ [(e, pri)]

/-- Source: PriorityQueue::remove — delete the entry for this event if
present; a no-op otherwise. -/
def EQremove (q : EventQueue) (e : Event) : EventQueue :=
  q.filter (fun ep => !decide (ep.1 = e))

/-- Source: PriorityQueue::pop — remove and return a maximum-priority entry
together with the rest of the queue; ties go to the earliest entry. -/
def popMax : EventQueue → Option ((Event × ℚ) × EventQueue)
  | [] => none
  | x :: xs =>
    match popMax xs with
    | none => some (x, [])
    | some (m, rest) => if x.2 < m.2 then some (m, x :: rest) else some (x, xs)

/-- Source: beachline.rs, struct BreakPoint: the edge tip being traced, the
ray direction it grows along, and the two foci meeting there. -/
structure BreakPoint where
  origin : Point
  direction : Point
  l : Point
  r : Point
  deriving DecidableEq, Repr

/-- Source: beachline.rs, struct Arc: a beachline leaf, one focus. -/
structure Arc where
  site : Point
  deriving DecidableEq, Repr

/-- Source: beachline.rs, enum BeachlineData. -/
inductive BeachlineData where
  | BreakPoint (bp : BreakPoint)
  | Arc (arc : Arc)
  deriving DecidableEq, Repr

/-- Source: beachline.rs, struct BeachlineEntry: an arena node with parent
and child indices. -/
structure BeachlineEntry where
  left_child : Option ℕ
  right_child : Option ℕ
  parent : Option ℕ
  data : BeachlineData
  deriving DecidableEq, Repr

/-- Source: beachline.rs, struct Beachline: arena of nodes plus an optional
root index.  Removed nodes are tombstoned: they stay in the arena,
unreachable from the root. -/
structure Beachline where
  root : Option ℕ
  nodes : List BeachlineEntry
  deriving DecidableEq, Repr

/-- Rust slice indexing nodes[i]; out of range panics, modelled by none. -/
def Beachline.getNode (b : Beachline) (i : ℕ) : Option BeachlineEntry :=
  b.nodes.get? i

/-- In-place update of one arena slot (call sites only use in-range
indices, checked by a preceding getNode). -/
def Beachline.setNode (b : Beachline) (i : ℕ) (e : BeachlineEntry) : Beachline :=
  ⟨b.root, b.nodes.set i e⟩

/-- Fuel bound for every pointer-chasing loop: one more than the arena
size, enough for any acyclic parent or child chain. -/
def Beachline.navFuel (b : Beachline) : ℕ := b.nodes.length + 1

/-- Source: Beachline::new. -/
def Beachline.new : Beachline := ⟨none, []⟩

/-- Source: Beachline::arc — panics (none) when the node is not an Arc. -/
def Beachline.arcAt (b : Beachline) (i : ℕ) : Option Arc := do
  let e ← b.getNode i
  match e.data with
  | .Arc a => some a
  | .BreakPoint _ => none

/-- Source: Beachline::minimum — leftmost arc of a subtree (fueled descent
along left children; a missing child is an unwrap panic). -/
def Beachline.minimumN (b : Beachline) : ℕ → ℕ → Option ℕ
  | 0, _ => none
  | fuel + 1, i => do
    let e ← b.getNode i
    match e.data with
    | .BreakPoint _ => do
      let l ← e.left_child
      b.minimumN fuel l
    | .Arc _ => some i

/-- Source: Beachline::maximum — rightmost arc of a subtree. -/
def Beachline.maximumN (b : Beachline) : ℕ → ℕ → Option ℕ
  | 0, _ => none
  | fuel + 1, i => do
    let e ← b.getNode i
    match e.data with
    | .BreakPoint _ => do
      let r ← e.right_child
      b.maximumN fuel r
    | .Arc _ => some i

/-- Source: Beachline::predecessor — climb while the current node is a left
child, then report the parent (none at the root).  The outer none is a
panic or exhausted fuel; the inner Option is the Rust return value. -/
def Beachline.predecessorN (b : Beachline) : ℕ → ℕ → Option (Option ℕ)
  | 0, _ => none
  | fuel + 1, i => do
    let e ← b.getNode i
    match e.parent with
    | none => some none
    | some p => do
      let pe ← b.getNode p
      let pl ← pe.left_child
      if pl = i then b.predecessorN fuel p else some (some p)

/-- Source: Beachline::successor — mirror image of predecessor. -/
def Beachline.successorN (b : Beachline) : ℕ → ℕ → Option (Option ℕ)
  | 0, _ => none
  | fuel + 1, i => do
    let e ← b.getNode i
    match e.parent with
    | none => some none
    | some p => do
      let pe ← b.getNode p
      let pr ← pe.right_child
      if pr = i then b.successorN fuel p else some (some p)

def Beachline.minimum (b : Beachline) (i : ℕ) : Option ℕ := b.minimumN b.navFuel i

def Beachline.maximum (b : Beachline) (i : ℕ) : Option ℕ := b.maximumN b.navFuel i

def Beachline.predecessor (b : Beachline) (i : ℕ) : Option (Option ℕ) :=
  b.predecessorN b.navFuel i

def Beachline.successor (b : Beachline) (i : ℕ) : Option (Option ℕ) :=
  b.successorN b.navFuel i

/-- Source: Beachline::left_arc — predecessor, then its left child, then the
maximum of that subtree. -/
def Beachline.left_arc (b : Beachline) (i : ℕ) : Option (Option (Arc × ℕ)) := do
  let pOpt ← b.predecessor i
  match pOpt with
  | none => some none
  | some p => do
    let pe ← b.getNode p
    match pe.left_child with
    | none => some none
    | some l => do
      let m ← b.maximum l
      let a ← b.arcAt m
      some (some (a, m))

/-- Source: Beachline::right_arc — successor, then its right child, then the
minimum of that subtree. -/
def Beachline.right_arc (b : Beachline) (i : ℕ) : Option (Option (Arc × ℕ)) := do
  let sOpt ← b.successor i
  match sOpt with
  | none => some none
  | some s => do
    let se ← b.getNode s
    match se.right_child with
    | none => some none
    | some r => do
      let m ← b.minimum r
      let a ← b.arcAt m
      some (some (a, m))

/-- Source: Beachline::left_edge — the predecessor, when it is a
breakpoint. -/
def Beachline.left_edge (b : Beachline) (i : ℕ) : Option (Option (BreakPoint × ℕ)) := do
  let pOpt ← b.predecessor i
  match pOpt with
  | none => some none
  | some p => do
    let pe ← b.getNode p
    match pe.data with
    | .BreakPoint bp => some (some (bp, p))
    | .Arc _ => some none

/-- Source: Beachline::right_edge — the successor, when it is a
breakpoint. -/
def Beachline.right_edge (b : Beachline) (i : ℕ) : Option (Option (BreakPoint × ℕ)) := do
  let sOpt ← b.successor i
  match sOpt with
  | none => some none
  | some s => do
    let se ← b.getNode s
    match se.data with
    | .BreakPoint bp => some (some (bp, s))
    | .Arc _ => some none

/-- Source: Beachline::arc_under_point descent loop (fueled). -/
def Beachline.arcUnderN (b : Beachline) (p : Point) (yl : ℚ) : ℕ → ℕ → Option (Arc × ℕ)
  | 0, _ => none
  | fuel + 1, i => do
    let e ← b.getNode i
    match e.data with
    | .BreakPoint bp =>
      let x := breakpoint_at_x bp.l bp.r yl
      if p.x < x then do
        let l ← e.left_child
        b.arcUnderN p yl fuel l
      else do
        let r ← e.right_child
        b.arcUnderN p yl fuel r
    | .Arc a => some (a, i)

/-- Source: Beachline::arc_under_point — none of the inner Option means the
tree is empty; the outer none is a panic inside the descent. -/
def Beachline.arc_under_point (b : Beachline) (p : Point) (yl : ℚ) :
    Option (Option (Arc × ℕ)) :=
  match b.root with
  | none => some none
  | some r => (b.arcUnderN p yl b.navFuel r).map some

/-- Source: Beachline::add_first_parabola — legal only on an empty tree
(the assert is modelled by none). -/
def Beachline.add_first_parabola (b : Beachline) (p : Point) : Option Beachline :=
  match b.root with
  | some _ => none
  | none =>
    some ⟨some b.nodes.length,
      b.nodes ++ [⟨none, none, none, .Arc ⟨p⟩⟩]⟩

/-- Source: Beachline::check_circle_event — requires both neighbour arcs to
exist with distinct sites, intersects the bounding breakpoints' rays, and
pushes a Circle event keyed by the circle top when it is at or below the
sweep line; otherwise leaves the queue unchanged. -/
def Beachline.check_circle_event (b : Beachline) (arc_idx : ℕ) (q : EventQueue)
    (yl : ℚ) : Option EventQueue := do
  let p ← b.arcAt arc_idx
  let l_opt ← b.left_arc arc_idx
  let r_opt ← b.right_arc arc_idx
  let xl_opt ← b.left_edge arc_idx
  let xr_opt ← b.right_edge arc_idx
  match l_opt, r_opt with
  | some l, some r =>
    if l.1.site = r.1.site then some q
    else do
      let xl ← xl_opt
      let xr ← xr_opt
      match intersection xl.1.origin xl.1.direction xr.1.origin xr.1.direction with
      | some s =>
        let rr := distance p.site s
        let circle_top := s.y - rr
        if yl < circle_top then some q
        else some (EQpush q (Event.Circle arc_idx) circle_top)
      | none => some q
  | _, _ => some q

/-- Source: Beachline::replace_arc — split the arc at arc_idx into the
five-node subtree a, xl, bb, xr, c, attach it where the old arc hung (via
the old arc's parent pointer), then run circle checks on the two outer new
arcs. -/
def Beachline.replace_arc (b : Beachline) (arc_idx : ℕ) (a : Arc) (xl : BreakPoint)
    (bb : Arc) (xr : BreakPoint) (c : Arc) (q : EventQueue) (yl : ℚ) :
    Option (Beachline × EventQueue) := do
  let old ← b.getNode arc_idx
  let parent := old.parent
  let a_idx := b.nodes.length
  let xl_idx := a_idx + 1
  let b_idx := a_idx + 2
  let xr_idx := a_idx + 3
  let c_idx := a_idx + 4
  let a_entry : BeachlineEntry := ⟨none, none, some xl_idx, .Arc a⟩
  let xl_entry : BeachlineEntry := ⟨some a_idx, some xr_idx, parent, .BreakPoint xl⟩
  let b_entry : BeachlineEntry := ⟨none, none, some xr_idx, .Arc bb⟩
  let xr_entry : BeachlineEntry := ⟨some b_idx, some c_idx, some xl_idx, .BreakPoint xr⟩
  let c_entry : BeachlineEntry := ⟨none, none, some xr_idx, .Arc c⟩
  let b0 : Beachline :=
    ⟨b.root, b.nodes ++ [a_entry, xl_entry, b_entry, xr_entry, c_entry]⟩
  let b1opt : Option Beachline :=
    match parent with
    | some parent_idx => do
      let pe ← b0.getNode parent_idx
      let pl ← pe.left_child
      if pl = arc_idx then
        some (b0.setNode parent_idx { pe with left_child := some xl_idx })
      else
        some (b0.setNode parent_idx { pe with right_child := some xl_idx })
    | none => some ⟨some xl_idx, b0.nodes⟩
  let b1 ← b1opt
  let q1 ← b1.check_circle_event a_idx q yl
  let q2 ← b1.check_circle_event c_idx q1 yl
  some (b1, q2)

/-- Source: the sibling selection inside Beachline::replace_breakpoint —
the parent's other child (an Option, not unwrapped); the final panic arm is
the "parent not claiming child" case. -/
def siblingOf (pe : BeachlineEntry) (p_idx : ℕ) : Option (Option ℕ) := do
  let pl ← pe.left_child
  if pl = p_idx then some pe.right_child
  else do
    let pr ← pe.right_child
    if pr = p_idx then some pe.left_child else none

/-- Source: Beachline::replace_breakpoint — remove the arc at p_idx at a
Circle event: rewrite whichever of xl_idx / xr_idx is not the arc's parent
with the merged breakpoint, splice the arc's sibling into the grandparent,
then run circle checks on the two neighbour arcs.  Every expect / unwrap /
panic is modelled by none. -/
def Beachline.replace_breakpoint (b : Beachline) (xl_idx p_idx xr_idx : ℕ)
    (x : BreakPoint) (q : EventQueue) (yl : ℚ) : Option (Beachline × EventQueue) := do
  let lRes ← b.left_arc p_idx
  let l ← lRes
  let rRes ← b.right_arc p_idx
  let r ← rRes
  let pent ← b.getNode p_idx
  let parent_idx ← pent.parent
  let other_idx := if parent_idx = xr_idx then xl_idx else xr_idx
  let oe ← b.getNode other_idx
  let b1 : Beachline := b.setNode other_idx { oe with data := .BreakPoint x }
  let pe ← b1.getNode parent_idx
  let sibling : Option ℕ ← siblingOf pe p_idx
  let granny_idx ← pe.parent
  let ge ← b1.getNode granny_idx
  let gl ← ge.left_child
  let b2opt : Option Beachline :=
    if gl = parent_idx then
      some (b1.setNode granny_idx { ge with left_child := sibling })
    else do
      let gr ← ge.right_child
      if gr = parent_idx then
        some (b1.setNode granny_idx { ge with right_child := sibling })
      else none
  let b2 ← b2opt
  let q1 ← b2.check_circle_event l.2 q yl
  let q2 ← b2.check_circle_event r.2 q1 yl
  some (b2, q2)

/-- Source: Beachline::extend_edges_to_bounding_box_aux — preorder walk
clipping every remaining breakpoint's ray to the box (fueled on depth). -/
def Beachline.extendAux (b : Beachline) (bb : BoundingBox) :
    ℕ → Option ℕ → Option (List Segment)
  | _, none => some []
  | 0, some _ => none
  | fuel + 1, some i => do
    let e ← b.getNode i
    let here : List Segment :=
      match e.data with
      | .BreakPoint bp => [bounded_segment bp.origin bp.direction bb]
      | .Arc _ => []
    let ls ← b.extendAux bb fuel e.left_child
    let rs ← b.extendAux bb fuel e.right_child
    some (here ++ ls ++ rs)

/-- Source: Beachline::extend_edges_to_bounding_box — the segments this
pass appends to the result vector. -/
def Beachline.extend_edges_to_bounding_box (b : Beachline) (bb : BoundingBox) :
    Option (List Segment) :=
  b.extendAux bb b.navFuel b.root

/-- Source: lib.rs, add_parabola — handle a Site event: find the arc under
the site; if the beachline is empty seed the root, otherwise invalidate the
arc's pending Circle event and split it via replace_arc. -/
def add_parabola (site : Point) (yl : ℚ) (q : EventQueue) (b : Beachline) :
    Option (EventQueue × Beachline) := do
  let found ← b.arc_under_point site yl
  match found with
  | some (arc, arc_idx) =>
    let q1 := EQremove q (Event.Circle arc_idx)
    let a : Arc := ⟨arc.site⟩
    let bb : Arc := ⟨site⟩
    let c : Arc := ⟨arc.site⟩
    let edge_origin := point_on_arc_at_x arc.site yl site.x
    let xl : BreakPoint :=
      ⟨edge_origin, normal_vector (Point.sub a.site bb.site), a.site, bb.site⟩
    let xr : BreakPoint :=
      ⟨edge_origin, normal_vector (Point.sub bb.site c.site), bb.site, c.site⟩
    let (b1, q2) ← b.replace_arc arc_idx a xl bb xr c q1 yl
    some (q2, b1)
  | none => do
    let b1 ← b.add_first_parabola site
    some (q, b1)

/-- Source: lib.rs, remove_parabola — handle a Circle event: fetch the two
neighbour arcs and bounding breakpoints, invalidate the neighbours' pending
Circle events, emit the two finished segments into the circumcenter, and
splice via replace_breakpoint. -/
def remove_parabola (arc_idx : ℕ) (q : EventQueue) (b : Beachline)
    (segments : List Segment) (yl : ℚ) :
    Option (EventQueue × Beachline × List Segment) := do
  let p ← b.arcAt arc_idx
  let lRes ← b.left_arc arc_idx
  let lp ← lRes
  let rRes ← b.right_arc arc_idx
  let rp ← rRes
  let q1 := EQremove q (Event.Circle lp.2)
  let q2 := EQremove q1 (Event.Circle rp.2)
  let s ← circumcenter lp.1.site p.site rp.1.site
  let xlRes ← b.left_edge arc_idx
  let xlp ← xlRes
  let xrRes ← b.right_edge arc_idx
  let xrp ← xrRes
  let segments1 := segments ++ [(xlp.1.origin, s), (xrp.1.origin, s)]
  let x : BreakPoint :=
    ⟨s, normal_vector (Point.sub lp.1.site rp.1.site), lp.1.site, rp.1.site⟩
  let (b2, q3) ← b.replace_breakpoint xlp.2 arc_idx xrp.2 x q2 yl
  some (q3, b2, segments1)

/-- The sweep's whole mutable state (source: the local variables of
fortunes_algorithm).  popped and circles are ghost observers — the list of
(event, priority) pairs popped so far and the number of Circle events
processed — recorded only so that the temporal claims can be stated; they
never influence the computation. -/
structure SweepState where
  eq : EventQueue
  beachline : Beachline
  segments : List Segment
  popped : List (Event × ℚ)
  circles : ℕ
  deriving DecidableEq, Repr

/-- One iteration of the event loop body (source: the match inside the
while-let of fortunes_algorithm). -/
def sweepStep (e : Event) (yl : ℚ) (st : SweepState) : Option SweepState :=
  match e with
  | .Site site => do
    let (q1, b1) ← add_parabola site yl st.eq st.beachline
    some { st with eq := q1, beachline := b1 }
  | .Circle arc_idx => do
    let (q1, b1, segs1) ← remove_parabola arc_idx st.eq st.beachline st.segments yl
    some { st with eq := q1, beachline := b1, segments := segs1,
                   circles := st.circles + 1 }

/-- Pop and process at most the given number of events; stops early when the
queue drains.  This is the while-let loop of fortunes_algorithm unrolled a
bounded number of times. -/
def sweepSteps : ℕ → SweepState → Option SweepState
  | 0, st => some st
  | fuel + 1, st =>
    match popMax st.eq with
    | none => some st
    | some ((e, yl), rest) => do
      let st1 ← sweepStep e yl
        { st with eq := rest, popped := st.popped ++ [(e, yl)] }
      sweepSteps fuel st1

/-- The complete event loop: run with the given fuel and demand that the
queue has drained (a faithful run of the source loop never stops early; a
fuel shortfall is reported as none, never as a wrong result). -/
def sweepRun (fuel : ℕ) (st : SweepState) : Option SweepState := do
  let st1 ← sweepSteps fuel st
  match popMax st1.eq with
  | none => some st1
  | some _ => none

/-- Source: the initial pushes of fortunes_algorithm — one Site event per
input site, priority the site's y. -/
def initEventQueue (sites : List Point) : EventQueue :=
  sites.foldl (fun q s => EQpush q (Event.Site s) s.y) []

/-- The sweep state just before the event loop starts. -/
def initState (sites : List Point) : SweepState :=
  ⟨initEventQueue sites, Beachline.new, [], [], 0⟩

/-- Fuel that suffices for every complete sweep: the loop pops at most one
Site event per input site plus one Circle event per arc ever created
(at most two new arc copies per site). -/
def sweepFuel (sites : List Point) : ℕ := 3 * sites.length + 1

/-- Source: lib.rs, fortunes_algorithm — push the site events, drain the
event loop, then extend the surviving edges to the bounding box.  none
models a Rust panic (no input is ever rejected by the source). -/
def fortunes_algorithm (sites : List Point) (bounding_box : BoundingBox) :
    Option (List Segment) := do
  let st ← sweepRun (sweepFuel sites) (initState sites)
  let extended ← st.beachline.extend_edges_to_bounding_box bounding_box
  some (st.segments ++ extended)

/-- In-order traversal of the node indices reachable from a subtree root
(fueled on depth); none on a missing child of a breakpoint, a child of an
arc, an out-of-range index or exhausted fuel.  This is the traversal the
specification's beachline invariant speaks about. -/
def Beachline.inorderAux (b : Beachline) : ℕ → ℕ → Option (List ℕ)
  | 0, _ => none
  | fuel + 1, i => do
    let e ← b.getNode i
    match e.data with
    | .Arc _ =>
      match e.left_child, e.right_child with
      | none, none => some [i]
      | _, _ => none
    | .BreakPoint _ => do
      let l ← e.left_child
      let r ← e.right_child
      let ls ← b.inorderAux fuel l
      let rs ← b.inorderAux fuel r
      some (ls ++ i :: rs)

/-- In-order traversal of the whole beachline. -/
def Beachline.inorder (b : Beachline) : Option (List ℕ) :=
  match b.root with
  | none => some []
  | some r => b.inorderAux b.navFuel r

/-- Whether the node at an index holds an Arc. -/
def Beachline.isArcIdx (b : Beachline) (i : ℕ) : Bool :=
  match b.getNode i with
  | some e =>
    match e.data with
    | .Arc _ => true
    | .BreakPoint _ => false
  | none => false

/-- The traversal's shape: the list of kinds (true = Arc) of an in-order
traversal. -/
def Beachline.kinds (b : Beachline) (l : List ℕ) : List Bool :=
  l.map b.isArcIdx

/-- Alternation predicate on a kind list: Arc, BreakPoint, Arc, …, Arc —
starts and ends with an Arc, strictly alternating. -/
def altKinds : List Bool → Bool
  | [true] => true
  | true :: false :: rest => altKinds rest
  | _ => false

/-- Membership of a point in a bounding box (both coordinates between the
box's bounds); the notion of being clipped that the output contract uses. -/
def inBox (bb : BoundingBox) (p : Point) : Prop :=
  bb.x_min ≤ p.x ∧ p.x ≤ bb.x_max ∧ bb.y_min ≤ p.y ∧ p.y ≤ bb.y_max

instance (bb : BoundingBox) (p : Point) : Decidable (inBox bb p) := by
  unfold inBox
  infer_instance

/-- The two sites of the vertical-line scenario. -/
def vlSites : List Point := [⟨250, 500⟩, ⟨750, 500⟩]

/-- The standard test box. -/
def box1000 : BoundingBox := ⟨0, 1000, 0, 1000⟩

/-- A box much smaller than the sites' span. -/
def tinyBox : BoundingBox := ⟨0, 1, 0, 1⟩

/-- A box of zero extent in both axes. -/
def degenBox : BoundingBox := ⟨0, 0, 0, 0⟩

/-- A five-node beachline whose middle arc has collinear neighbour sites
(0,0), (1,1), (2,2): in-order arc (0,0), breakpoint, arc (1,1), breakpoint,
arc (2,2). -/
def collinearBL : Beachline :=
  ⟨some 1,
    [⟨none, none, some 1, .Arc ⟨⟨0, 0⟩⟩⟩,
     ⟨some 0, some 3, none, .BreakPoint ⟨⟨0, 0⟩, ⟨1, 1⟩, ⟨0, 0⟩, ⟨1, 1⟩⟩⟩,
     ⟨none, none, some 3, .Arc ⟨⟨1, 1⟩⟩⟩,
     ⟨some 2, some 4, some 1, .BreakPoint ⟨⟨0, 0⟩, ⟨1, 1⟩, ⟨1, 1⟩, ⟨2, 2⟩⟩⟩,
     ⟨none, none, some 3, .Arc ⟨⟨2, 2⟩⟩⟩]⟩

/-- A five-node beachline (the state of the sweep over the three sites
(750,250), (500,750), (250,250) just before its circle event, with the
middle arc squeezed between distinct neighbours and converging edge
rays). -/
def circleBL : Beachline :=
  ⟨some 1,
    [⟨none, none, some 1, .Arc ⟨⟨250, 250⟩⟩⟩,
     ⟨some 0, some 3, none,
       .BreakPoint ⟨⟨250, 1125/2⟩, ⟨500, -250⟩, ⟨250, 250⟩, ⟨500, 750⟩⟩⟩,
     ⟨none, none, some 3, .Arc ⟨⟨500, 750⟩⟩⟩,
     ⟨some 2, some 4, some 1,
       .BreakPoint ⟨⟨750, 1125/2⟩, ⟨-500, -250⟩, ⟨500, 750⟩, ⟨750, 250⟩⟩⟩,
     ⟨none, none, some 3, .Arc ⟨⟨750, 250⟩⟩⟩]⟩

/-- Four sites driving the sweep through a circle event and then a site
event that lands on the arc the circle event's splice left with a stale
parent pointer. -/
def bugSites : List Point := [⟨750, 250⟩, ⟨500, 750⟩, ⟨250, 250⟩, ⟨250, 100⟩]

/-- The sweep state over bugSites after its first five events (three Site
events and two Circle events: the first circle event's coincident-ray
scalar u is the f64 quotient +0.0 / -250000 = -0.0, so the real program —
and this model, via signumF — schedules and then processes a second circle
event at 125); exactly the fourth site's Site event is still pending. -/
def bugMid : Option SweepState := sweepSteps 5 (initState bugSites)

/-- The sweep state after the sixth event (the pending Site event) is
processed by the sweep's own transition. -/
def bugStep : Option SweepState := do
  let st ← bugMid
  let (m, rest) ← popMax st.eq
  sweepStep m.1 m.2 { st with eq := rest, popped := st.popped ++ [m] }

/-- Twice the signed area of the triangle a b c; zero exactly on collinear
triples. -/
def crossDet (a b c : Point) : ℚ :=
  (b.x - a.x) * (c.y - a.y) - (c.x - a.x) * (b.y - a.y)

/-- Collinearity of three points. -/
def collinearPts (a b c : Point) : Prop := crossDet a b c = 0

/-- Squared Euclidean distance. -/
def sqDist (p q : Point) : ℚ :=
  (p.x - q.x) * (p.x - q.x) + (p.y - q.y) * (p.y - q.y)

attribute [local semireducible] Rat.add Rat.sub Rat.mul Rat.inv

/-- C7: fortunes_algorithm on the two sites (250,500) and (750,500) with the
box [0,1000]x[0,1000] returns exactly two segments forming the vertical
line x = 500 split at (500,500): the segment (500,500)-(500,0) and the
segment (500,500)-(500,1000). -/
theorem c7_vertical_line :
    fortunes_algorithm vlSites box1000 =
      some [(⟨500, 500⟩, ⟨500, 0⟩), (⟨500, 500⟩, ⟨500, 1000⟩)] := by
  decide

/-- C10: for every single-site input and every bounding box,
fortunes_algorithm returns the empty segment collection: the lone Site
event seeds the root arc, no breakpoint ever exists, and the box-extension
pass emits nothing. -/
theorem c10_single_site (p : Point) (bb : BoundingBox) :
    fortunes_algorithm [p] bb = some [] := rfl

/-- C9: fortunes_algorithm is deterministic — two runs on identical inputs
(same sites in the same order, same box) return identical segment
collections (hence identical up to per-segment endpoint order and overall
segment order).  In the embedding the algorithm is a pure function of its
input, so equality of inputs gives literal equality of outputs. -/
theorem c9_deterministic (s1 s2 : List Point) (b1 b2 : BoundingBox)
    (hs : s1 = s2) (hb : b1 = b2) :
    fortunes_algorithm s1 b1 = fortunes_algorithm s2 b2 := by
  subst hs; subst hb; rfl

/-- Witness for c9_deterministic at a concrete input. -/
theorem c9_witness :
    fortunes_algorithm vlSites box1000 = fortunes_algorithm vlSites box1000 :=
  c9_deterministic vlSites vlSites box1000 box1000 rfl rfl

/-- C3 (counterexample): with a bounding box of non-positive extent and a
nonempty site list, fortunes_algorithm does not reject the input before
the sweep: it processes every event and returns a segment collection. -/
theorem c3_counterexample :
    fortunes_algorithm vlSites degenBox =
      some [(⟨500, 500⟩, ⟨500, 0⟩), (⟨500, 500⟩, ⟨500, 0⟩)] := by
  decide

/-- C3 (amended): fortunes_algorithm performs no input validation at all —
a degenerate (non-positive extent) box is processed like any other and the
sweep runs to completion; the empty site list is a legal no-op returning
the empty segment collection. -/
theorem c3_no_validation :
    (∀ bb : BoundingBox, fortunes_algorithm [] bb = some []) ∧
    (fortunes_algorithm vlSites degenBox).isSome = true := by
  exact ⟨fun bb => rfl, by decide⟩

/-- C2 (counterexample): with the box [0,1]x[0,1] and the two sites
(250,500), (750,500), fortunes_algorithm returns segments whose first
endpoints are the breakpoint origin (500,500), far outside the box: the
returned segments are not clipped to the box. -/
theorem c2_counterexample :
    fortunes_algorithm vlSites tinyBox =
      some [(⟨500, 500⟩, ⟨500, 0⟩), (⟨500, 500⟩, ⟨500, 1⟩)] ∧
    ¬ inBox tinyBox ⟨500, 500⟩ := by
  exact ⟨by decide, by decide⟩

/-- C4 (counterexample): on the collinear triple (0,0), (1,1), (2,2) the
circumcenter panics (none), and remove_parabola — the caller performing
the circle-event computation — propagates the panic and aborts instead of
treating it as a recoverable no-event. -/
theorem c4_counterexample :
    circumcenter ⟨0, 0⟩ ⟨1, 1⟩ ⟨2, 2⟩ = none ∧
    remove_parabola 2 [] collinearBL [] 0 = none := by
  exact ⟨by decide, by decide⟩

/-- C1 (code bug, evaluated at the failing input): over bugSites the sweep
processes three Site events and two Circle events, leaving the in-order
traversal [6,7,8,2,5] (3 arcs, 2 breakpoints, alternating); the next event
the sweep pops is a Site event landing in a nonempty beachline, so it is
handled by replace_arc — yet after processing it the traversal is
unchanged (the five new nodes are grafted under the detached node their
stale parent pointer names), instead of growing by two arcs and two
breakpoints. -/
theorem c1_site_event_traversal_unchanged :
    bugMid.map (fun st => (popMax st.eq).map (fun m => m.1.1)) =
      some (some (Event.Site ⟨250, 100⟩)) ∧
    bugMid.map (fun st => st.beachline.root) = some (some 2) ∧
    bugMid.bind (fun st => st.beachline.inorder) = some [6, 7, 8, 2, 5] ∧
    bugMid.bind
        (fun st => st.beachline.inorder.map (fun l => altKinds (st.beachline.kinds l))) =
      some true ∧
    bugMid.map (fun st => st.beachline.nodes.length) = some 11 ∧
    bugStep.bind (fun st => st.beachline.inorder) = some [6, 7, 8, 2, 5] ∧
    bugStep.map (fun st => st.beachline.nodes.length) = some 16 := by
  exact ⟨by decide, by decide, by decide, by decide, by decide, by decide, by decide⟩

/-- One axis of the ray clipping: if the start coordinate is inside the wall
interval, the scalar c is nonnegative, and (for a moving axis) c is at most
the hit scalar of the wall in the direction of motion, then the end
coordinate stays inside the interval. -/
theorem clip_coord (x dx lo hi c : ℚ) (h1 : lo ≤ x) (h2 : x ≤ hi) (hc : 0 ≤ c)
    (hbound : dx ≠ 0 → c ≤ (if dx < 0 then (lo - x) / dx else (hi - x) / dx)) :
    lo ≤ x + c * dx ∧ x + c * dx ≤ hi := by
  rcases lt_trichotomy dx 0 with hneg | hzero | hpos
  · have hb := hbound (ne_of_lt hneg)
    rw [if_pos hneg] at hb
    have h3 : lo - x ≤ c * dx := (le_div_iff_of_neg hneg).mp hb
    have h4 : c * dx ≤ 0 := mul_nonpos_of_nonneg_of_nonpos hc hneg.le
    constructor <;> linarith
  · subst hzero
    constructor <;> linarith [mul_zero c]
  · have hb := hbound (ne_of_gt hpos)
    rw [if_neg (not_lt.mpr hpos.le)] at hb
    have h3 : c * dx ≤ hi - x := (le_div_iff₀ hpos).mp hb
    have h4 : 0 ≤ c * dx := mul_nonneg hc hpos.le
    constructor <;> linarith

/-- Both axes of the ray clipping of bounded_segment, in scalar form: the
destination stays inside the box whenever the origin is inside it. -/
theorem clip_pair (x y dx dy lox hix loy hiy cx cy c : ℚ)
    (hx1 : lox ≤ x) (hx2 : x ≤ hix) (hy1 : loy ≤ y) (hy2 : y ≤ hiy)
    (hcx : cx = if dx = 0 then 0 else if dx < 0 then (lox - x) / dx else (hix - x) / dx)
    (hcy : cy = if dy = 0 then 0 else if dy < 0 then (loy - y) / dy else (hiy - y) / dy)
    (hc : c = if dx = 0 then cy else if dy = 0 then cx else min cx cy) :
    lox ≤ x + c * dx ∧ x + c * dx ≤ hix ∧ loy ≤ y + c * dy ∧ y + c * dy ≤ hiy := by
  have hcx0 : 0 ≤ cx := by
    rw [hcx]
    split_ifs with e1 e2
    · rfl
    · exact div_nonneg_of_nonpos (by linarith) (le_of_lt e2)
    · exact div_nonneg (by linarith) (le_of_not_lt e2)
  have hcy0 : 0 ≤ cy := by
    rw [hcy]
    split_ifs with e1 e2
    · rfl
    · exact div_nonneg_of_nonpos (by linarith) (le_of_lt e2)
    · exact div_nonneg (by linarith) (le_of_not_lt e2)
  have hc0 : 0 ≤ c := by
    rw [hc]
    split_ifs
    · exact hcy0
    · exact hcx0
    · exact le_min hcx0 hcy0
  have hclex : dx ≠ 0 → c ≤ (if dx < 0 then (lox - x) / dx else (hix - x) / dx) := by
    intro hdx
    have : c ≤ cx := by
      rw [hc, if_neg hdx]
      split_ifs
      · exact le_refl cx
      · exact min_le_left cx cy
    rw [hcx, if_neg hdx] at this
    exact this
  have hcley : dy ≠ 0 → c ≤ (if dy < 0 then (loy - y) / dy else (hiy - y) / dy) := by
    intro hdy
    have : c ≤ cy := by
      rw [hc]
      by_cases e1 : dx = 0
      · rw [if_pos e1]
      · rw [if_neg e1, if_neg hdy]
        exact min_le_right cx cy
    rw [hcy, if_neg hdy] at this
    exact this
  obtain ⟨a1, a2⟩ := clip_coord x dx lox hix c hx1 hx2 hc0 hclex
  obtain ⟨b1, b2⟩ := clip_coord y dy loy hiy c hy1 hy2 hc0 hcley
  exact ⟨a1, a2, b1, b2⟩

/-- C2 (amended): bounded_segment really clips — whenever the ray origin
lies inside the bounding box, both endpoints of the produced segment lie
inside the box.  (The counterexample shows the overall output is not
clipped, because breakpoint origins and circumcenters enter segments
unclipped.) -/
theorem c2_bounded_segment_clips (origin direction : Point) (bb : BoundingBox)
    (h : inBox bb origin) :
    inBox bb (bounded_segment origin direction bb).1 ∧
    inBox bb (bounded_segment origin direction bb).2 := by
  obtain ⟨hx1, hx2, hy1, hy2⟩ := h
  exact ⟨⟨hx1, hx2, hy1, hy2⟩,
    clip_pair origin.x origin.y direction.x direction.y bb.x_min bb.x_max bb.y_min
      bb.y_max _ _ _ hx1 hx2 hy1 hy2 rfl rfl rfl⟩

/-- Witness for c2_bounded_segment_clips at a concrete origin, direction
and box. -/
theorem c2_witness :
    inBox tinyBox ⟨1/2, 1/2⟩ ∧
    (inBox tinyBox (bounded_segment ⟨1/2, 1/2⟩ ⟨3, -4⟩ tinyBox).1 ∧
     inBox tinyBox (bounded_segment ⟨1/2, 1/2⟩ ⟨3, -4⟩ tinyBox).2) :=
  ⟨by decide, c2_bounded_segment_clips ⟨1/2, 1/2⟩ ⟨3, -4⟩ tinyBox (by decide)⟩

/-- The circumcenter solves the two perpendicular-bisector equations: with
the determinant nonzero, the computed (x, y) satisfies a1 x + b1 y = c1 and
a2 x + b2 y = c2, whichever branch computed x. -/
theorem circum_key (a1 a2 b1 b2 c1 c2 x y : ℚ)
    (hden : b1 * a2 - b2 * a1 ≠ 0)
    (hy : y = (c1 * a2 - c2 * a1) / (b1 * a2 - b2 * a1))
    (hx : x = if a2 ≠ 0 then (c2 - b2 * y) / a2 else (c1 - b1 * y) / a1) :
    a1 * x + b1 * y = c1 ∧ a2 * x + b2 * y = c2 := by
  have hy' : y * (b1 * a2 - b2 * a1) = c1 * a2 - c2 * a1 := by
    rw [hy]
    exact div_mul_cancel₀ _ hden
  by_cases ha2 : a2 ≠ 0
  · rw [if_pos ha2] at hx
    subst hx
    constructor
    · field_simp
      linear_combination hy'
    · field_simp
  · rw [if_neg ha2] at hx
    push_neg at ha2
    have ha1 : a1 ≠ 0 := by
      intro e
      apply hden
      rw [ha2, e]
      ring
    subst hx
    have hyy := hy'
    rw [ha2] at hyy
    have h3 : b2 * y * a1 = c2 * a1 := by linear_combination (-1 : ℚ) * hyy
    have h4 : b2 * y = c2 := mul_right_cancel₀ ha1 h3
    constructor
    · field_simp
    · rw [ha2]
      linear_combination h4

/-- C4 (amended): circumcenter fails exactly when the determinant of the
perpendicular-bisector linear system is zero, which happens exactly on
collinear triples; for every non-collinear triple it returns the center of
the circle through the three points (equidistant from all three).  The
failure, however, is a panic, and the circle-event caller propagates it
(see the counterexample) instead of treating it as no event. -/
theorem c4_circumcenter_collinear :
    (∀ a b c : Point, circumcenter a b c = none ↔ collinearPts a b c) ∧
    (∀ a b c s : Point, circumcenter a b c = some s →
      sqDist s a = sqDist s c ∧ sqDist s b = sqDist s c) := by
  constructor
  · intro a b c
    unfold circumcenter collinearPts crossDet
    dsimp only
    by_cases h : (a.y - c.y) * (-2) * ((b.x - c.x) * (-2)) -
        (b.y - c.y) * (-2) * ((a.x - c.x) * (-2)) = 0
    · rw [if_pos h]
      constructor
      · intro _
        linear_combination (-1 / 4 : ℚ) * h
      · intro _
        rfl
    · rw [if_neg h]
      constructor
      · intro hs
        exact absurd hs (by simp)
      · intro hcross
        exact absurd (by linear_combination (-4 : ℚ) * hcross) h
  · intro a b c s hs
    unfold circumcenter at hs
    dsimp only at hs
    by_cases h : (a.y - c.y) * (-2) * ((b.x - c.x) * (-2)) -
        (b.y - c.y) * (-2) * ((a.x - c.x) * (-2)) = 0
    · rw [if_pos h] at hs
      exact absurd hs (by simp)
    · rw [if_neg h] at hs
      rw [Option.some.injEq] at hs
      subst hs
      obtain ⟨k1, k2⟩ :=
        circum_key ((a.x - c.x) * (-2)) ((b.x - c.x) * (-2))
          ((a.y - c.y) * (-2)) ((b.y - c.y) * (-2))
          (c.x * c.x + c.y * c.y - a.x * a.x - a.y * a.y)
          (c.x * c.x + c.y * c.y - b.x * b.x - b.y * b.y)
          (if (b.x - c.x) * (-2) ≠ 0 then
            (c.x * c.x + c.y * c.y - b.x * b.x - b.y * b.y -
                (b.y - c.y) * (-2) *
                  (((c.x * c.x + c.y * c.y - a.x * a.x - a.y * a.y) * ((b.x - c.x) * (-2)) -
                      (c.x * c.x + c.y * c.y - b.x * b.x - b.y * b.y) * ((a.x - c.x) * (-2))) /
                    ((a.y - c.y) * (-2) * ((b.x - c.x) * (-2)) -
                      (b.y - c.y) * (-2) * ((a.x - c.x) * (-2))))) /
              ((b.x - c.x) * (-2))
          else
            (c.x * c.x + c.y * c.y - a.x * a.x - a.y * a.y -
                (a.y - c.y) * (-2) *
                  (((c.x * c.x + c.y * c.y - a.x * a.x - a.y * a.y) * ((b.x - c.x) * (-2)) -
                      (c.x * c.x + c.y * c.y - b.x * b.x - b.y * b.y) * ((a.x - c.x) * (-2))) /
                    ((a.y - c.y) * (-2) * ((b.x - c.x) * (-2)) -
                      (b.y - c.y) * (-2) * ((a.x - c.x) * (-2))))) /
              ((a.x - c.x) * (-2)))
          (((c.x * c.x + c.y * c.y - a.x * a.x - a.y * a.y) * ((b.x - c.x) * (-2)) -
              (c.x * c.x + c.y * c.y - b.x * b.x - b.y * b.y) * ((a.x - c.x) * (-2))) /
            ((a.y - c.y) * (-2) * ((b.x - c.x) * (-2)) -
              (b.y - c.y) * (-2) * ((a.x - c.x) * (-2))))
          h rfl rfl
      constructor
      · unfold sqDist
        dsimp only
        linear_combination k1
      · unfold sqDist
        dsimp only
        linear_combination k2

/-- Witness for c4_circumcenter_collinear at a concrete non-collinear
triple. -/
theorem c4_witness :
    sqDist ⟨500, 875 / 2⟩ ⟨250, 250⟩ = sqDist ⟨500, 875 / 2⟩ ⟨750, 250⟩ ∧
    ¬ collinearPts ⟨250, 250⟩ ⟨500, 750⟩ ⟨750, 250⟩ := by
  constructor
  · exact (c4_circumcenter_collinear.2 ⟨250, 250⟩ ⟨500, 750⟩ ⟨750, 250⟩ ⟨500, 875 / 2⟩
      (by decide)).1
  · intro hc
    exact absurd ((c4_circumcenter_collinear.1 ⟨250, 250⟩ ⟨500, 750⟩ ⟨750, 250⟩).mpr hc)
      (by decide)

/-- C5: given the navigation results as hypotheses (a well-formed state),
check_circle_event pushes a Circle event for the arc, keyed by s.y - r with
r the distance from the arc's site to the ray intersection s, exactly when
both neighbour arcs exist, their sites are distinct, the two bounding
breakpoints' rays intersect, and s.y - r is at or below the sweep
coordinate; in every other case the queue is returned unchanged. -/
theorem c5_check_circle_event_exact (b : Beachline) (arc_idx : ℕ) (q : EventQueue)
    (yl : ℚ) (p : Arc) (lRes rRes : Option (Arc × ℕ))
    (xlRes xrRes : Option (BreakPoint × ℕ))
    (hp : b.arcAt arc_idx = some p)
    (hl : b.left_arc arc_idx = some lRes)
    (hr : b.right_arc arc_idx = some rRes)
    (hxl : b.left_edge arc_idx = some xlRes)
    (hxr : b.right_edge arc_idx = some xrRes) :
    (∀ l r xl xr s, lRes = some l → rRes = some r → xlRes = some xl → xrRes = some xr →
      l.1.site ≠ r.1.site →
      intersection xl.1.origin xl.1.direction xr.1.origin xr.1.direction = some s →
      s.y - distance p.site s ≤ yl →
      b.check_circle_event arc_idx q yl =
        some (EQpush q (Event.Circle arc_idx) (s.y - distance p.site s))) ∧
    (lRes = none → b.check_circle_event arc_idx q yl = some q) ∧
    (rRes = none → b.check_circle_event arc_idx q yl = some q) ∧
    (∀ l r, lRes = some l → rRes = some r → l.1.site = r.1.site →
      b.check_circle_event arc_idx q yl = some q) ∧
    (∀ l r xl xr, lRes = some l → rRes = some r → xlRes = some xl → xrRes = some xr →
      l.1.site ≠ r.1.site →
      intersection xl.1.origin xl.1.direction xr.1.origin xr.1.direction = none →
      b.check_circle_event arc_idx q yl = some q) ∧
    (∀ l r xl xr s, lRes = some l → rRes = some r → xlRes = some xl → xrRes = some xr →
      l.1.site ≠ r.1.site →
      intersection xl.1.origin xl.1.direction xr.1.origin xr.1.direction = some s →
      yl < s.y - distance p.site s →
      b.check_circle_event arc_idx q yl = some q) := by
  refine ⟨?_, ?_, ?_, ?_, ?_, ?_⟩
  · intro l r xl xr s el er exl exr hne hint hle
    subst el; subst er; subst exl; subst exr
    simp [Beachline.check_circle_event, hp, hl, hr, hxl, hxr, hne, hint,
      not_lt.mpr hle]
  · intro e
    subst e
    simp [Beachline.check_circle_event, hp, hl, hr, hxl, hxr]
  · intro e
    subst e
    cases lRes with
    | none => simp [Beachline.check_circle_event, hp, hl, hr, hxl, hxr]
    | some l => simp [Beachline.check_circle_event, hp, hl, hr, hxl, hxr]
  · intro l r el er he
    subst el; subst er
    simp [Beachline.check_circle_event, hp, hl, hr, hxl, hxr, he]
  · intro l r xl xr el er exl exr hne hint
    subst el; subst er; subst exl; subst exr
    simp [Beachline.check_circle_event, hp, hl, hr, hxl, hxr, hne, hint]
  · intro l r xl xr s el er exl exr hne hint hgt
    subst el; subst er; subst exl; subst exr
    simp [Beachline.check_circle_event, hp, hl, hr, hxl, hxr, hne, hint, hgt]

/-- Witness for c5_check_circle_event_exact on a concrete beachline, where
the event is pushed with key 125. -/
theorem c5_witness :
    circleBL.check_circle_event 2 [] 250 = some [(Event.Circle 2, 125)] := by
  have h := (c5_check_circle_event_exact circleBL 2 [] 250 ⟨⟨500, 750⟩⟩
      (some (⟨⟨250, 250⟩⟩, 0)) (some (⟨⟨750, 250⟩⟩, 4))
      (some (⟨⟨250, 1125 / 2⟩, ⟨500, -250⟩, ⟨250, 250⟩, ⟨500, 750⟩⟩, 1))
      (some (⟨⟨750, 1125 / 2⟩, ⟨-500, -250⟩, ⟨500, 750⟩, ⟨750, 250⟩⟩, 3))
      (by decide) (by decide) (by decide) (by decide) (by decide)).1
  have h2 := h _ _ _ _ ⟨500, 875 / 2⟩ rfl rfl rfl rfl (by decide) (by decide) (by decide)
  rw [h2]
  decide

/-- Whenever remove_parabola succeeds, it appends exactly two segments. -/
theorem remove_parabola_two_segments (arc_idx : ℕ) (q : EventQueue) (b : Beachline)
    (segs : List Segment) (yl : ℚ) (res : EventQueue × Beachline × List Segment)
    (h : remove_parabola arc_idx q b segs yl = some res) :
    res.2.2.length = segs.length + 2 := by
  unfold remove_parabola at h
  simp only [Option.pure_def, Option.bind_eq_bind, Option.bind_eq_some] at h
  obtain ⟨p, hp, lRes, hl, lp, hlp, rRes, hr, rp, hrp, s, hs, xlRes, hxl, xlp, hxlp,
    xrRes, hxr, xrp, hxrp, br, hbr, hres⟩ := h
  simp only [Option.some.injEq] at hres
  subst hres
  simp [List.length_append]

/-- One loop iteration preserves the relation between the number of
accumulated segments and the number of Circle events processed: a Site
event changes neither, a Circle event adds two segments and one count. -/
theorem sweepStep_counts (e : Event) (yl : ℚ) (st st' : SweepState)
    (h : sweepStep e yl st = some st') :
    st'.segments.length + 2 * st.circles = st.segments.length + 2 * st'.circles := by
  cases e with
  | Site site =>
    unfold sweepStep at h
    simp only [Option.pure_def, Option.bind_eq_bind, Option.bind_eq_some] at h
    obtain ⟨pr, hpr, hst⟩ := h
    simp only [Option.some.injEq] at hst
    subst hst
    simp
  | Circle arc_idx =>
    unfold sweepStep at h
    simp only [Option.pure_def, Option.bind_eq_bind, Option.bind_eq_some] at h
    obtain ⟨pr, hpr, hst⟩ := h
    simp only [Option.some.injEq] at hst
    subst hst
    have h2 := remove_parabola_two_segments arc_idx st.eq st.beachline st.segments yl pr hpr
    show pr.2.2.length + 2 * st.circles = st.segments.length + 2 * (st.circles + 1)
    omega

/-- The loop invariant: over any run prefix, the growth of the segment
count is twice the growth of the Circle-event count. -/
theorem sweepSteps_counts (fuel : ℕ) :
    ∀ st st', sweepSteps fuel st = some st' →
      st'.segments.length + 2 * st.circles = st.segments.length + 2 * st'.circles := by
  induction fuel with
  | zero =>
    intro st st' h
    unfold sweepSteps at h
    simp only [Option.some.injEq] at h
    subst h
    rfl
  | succ n ih =>
    intro st st' h
    unfold sweepSteps at h
    cases hpop : popMax st.eq with
    | none =>
      rw [hpop] at h
      simp only [Option.some.injEq] at h
      subst h
      rfl
    | some m =>
      rw [hpop] at h
      obtain ⟨⟨e, yl⟩, rest⟩ := m
      simp only [Option.pure_def, Option.bind_eq_bind, Option.bind_eq_some] at h
      obtain ⟨st1, hst1, hrun⟩ := h
      have h1 := sweepStep_counts e yl _ st1 hst1
      have h2 := ih st1 st' hrun
      simp only [] at h1
      omega

/-- C6: each Circle event processed by the driver emits exactly two
finished segments — from the left bounding breakpoint's origin to the
circumcenter of the three involved sites and from the right bounding
breakpoint's origin to that circumcenter — and over every run of the event
loop the number of segments accumulated before box-clipping equals twice
the number of Circle events processed. -/
theorem c6_two_segments_per_circle :
    (∀ (arc_idx : ℕ) (q : EventQueue) (b : Beachline) (segs : List Segment) (yl : ℚ)
       (p : Arc) (l r : Arc × ℕ) (xl xr : BreakPoint × ℕ) (s : Point)
       (br : Beachline × EventQueue),
      b.arcAt arc_idx = some p →
      b.left_arc arc_idx = some (some l) →
      b.right_arc arc_idx = some (some r) →
      circumcenter l.1.site p.site r.1.site = some s →
      b.left_edge arc_idx = some (some xl) →
      b.right_edge arc_idx = some (some xr) →
      b.replace_breakpoint xl.2 arc_idx xr.2
          ⟨s, normal_vector (Point.sub l.1.site r.1.site), l.1.site, r.1.site⟩
          (EQremove (EQremove q (Event.Circle l.2)) (Event.Circle r.2)) yl = some br →
      remove_parabola arc_idx q b segs yl =
        some (br.2, br.1, segs ++ [(xl.1.origin, s), (xr.1.origin, s)])) ∧
    (∀ fuel sites st', sweepSteps fuel (initState sites) = some st' →
      st'.segments.length = 2 * st'.circles) := by
  constructor
  · intro arc_idx q b segs yl p l r xl xr s br hp hl hr hs hxl hxr hrb
    simp [remove_parabola, hp, hl, hr, hs, hxl, hxr, hrb]
  · intro fuel sites st' h
    have h2 := sweepSteps_counts fuel (initState sites) st' h
    simpa [initState] using h2

/-- Witness for c6_two_segments_per_circle: the four-event run over
bugSites (one Circle event, two segments) and a concrete circle-event
removal emitting exactly the two claimed segments. -/
theorem c6_witness :
    (sweepSteps 4 (initState bugSites)).map
        (fun st => decide (st.segments.length = 2 * st.circles)) = some true ∧
    (remove_parabola 2 [] circleBL [] 250).map (fun t => t.2.2) =
      some [(⟨250, 1125 / 2⟩, ⟨500, 875 / 2⟩), (⟨750, 1125 / 2⟩, ⟨500, 875 / 2⟩)] := by
  constructor
  · cases h : sweepSteps 4 (initState bugSites) with
    | none => exact absurd h (by decide)
    | some st =>
      have h2 := c6_two_segments_per_circle.2 4 bugSites st h
      simp [h2]
  · cases h : circleBL.replace_breakpoint 1 2 3
        ⟨⟨500, 875 / 2⟩, normal_vector (Point.sub ⟨250, 250⟩ ⟨750, 250⟩),
          ⟨250, 250⟩, ⟨750, 250⟩⟩
        (EQremove (EQremove [] (Event.Circle 0)) (Event.Circle 4)) 250 with
    | none => exact absurd h (by decide)
    | some br =>
      have h3 := c6_two_segments_per_circle.1 2 [] circleBL [] 250 ⟨⟨500, 750⟩⟩
          (⟨⟨250, 250⟩⟩, 0) (⟨⟨750, 250⟩⟩, 4)
          (⟨⟨250, 1125 / 2⟩, ⟨500, -250⟩, ⟨250, 250⟩, ⟨500, 750⟩⟩, 1)
          (⟨⟨750, 1125 / 2⟩, ⟨-500, -250⟩, ⟨500, 750⟩, ⟨750, 250⟩⟩, 3)
          ⟨500, 875 / 2⟩ br (by decide) (by decide) (by decide) (by decide) (by decide)
          (by decide) h
      rw [h3]
      simp

/-- pop of a nonempty queue always returns an entry. -/
theorem popMax_cons_ne_none (x : Event × ℚ) (xs : EventQueue) :
    popMax (x :: xs) ≠ none := by
  unfold popMax
  cases hx : popMax xs with
  | none => simp
  | some p =>
    obtain ⟨m, rest⟩ := p
    dsimp only
    split <;> simp

/-- The popped entry carries a maximal priority of the queue. -/
theorem popMax_max : ∀ (q : EventQueue) (m : Event × ℚ) (rest : EventQueue),
    popMax q = some (m, rest) → ∀ ep ∈ q, ep.2 ≤ m.2 := by
  intro q
  induction q with
  | nil => intro m rest h ep hep; simp at hep
  | cons x xs ih =>
    intro m rest h ep hep
    unfold popMax at h
    cases hx : popMax xs with
    | none =>
      rw [hx] at h
      dsimp only at h
      simp only [Option.some.injEq, Prod.mk.injEq] at h
      obtain ⟨hm, _⟩ := h
      subst hm
      rcases List.mem_cons.mp hep with he | he
      · subst he; exact le_refl _
      · cases xs with
        | nil => simp at he
        | cons y ys => exact absurd hx (popMax_cons_ne_none y ys)
    | some p =>
      obtain ⟨m', rest'⟩ := p
      rw [hx] at h
      dsimp only at h
      by_cases hlt : x.2 < m'.2
      · rw [if_pos hlt] at h
        simp only [Option.some.injEq, Prod.mk.injEq] at h
        obtain ⟨hm, _⟩ := h
        subst hm
        rcases List.mem_cons.mp hep with he | he
        · subst he; exact le_of_lt hlt
        · exact ih m' rest' hx ep he
      · rw [if_neg hlt] at h
        simp only [Option.some.injEq, Prod.mk.injEq] at h
        obtain ⟨hm, _⟩ := h
        subst hm
        rcases List.mem_cons.mp hep with he | he
        · subst he; exact le_refl _
        · exact le_trans (ih m' rest' hx ep he) (not_lt.mp hlt)

/-- The popped entry was a member of the queue. -/
theorem popMax_mem : ∀ (q : EventQueue) (m : Event × ℚ) (rest : EventQueue),
    popMax q = some (m, rest) → m ∈ q := by
  intro q
  induction q with
  | nil => intro m rest h; simp [popMax] at h
  | cons x xs ih =>
    intro m rest h
    unfold popMax at h
    cases hx : popMax xs with
    | none =>
      rw [hx] at h
      dsimp only at h
      simp only [Option.some.injEq, Prod.mk.injEq] at h
      obtain ⟨hm, _⟩ := h
      subst hm
      exact List.mem_cons_self x xs
    | some p =>
      obtain ⟨m', rest'⟩ := p
      rw [hx] at h
      dsimp only at h
      by_cases hlt : x.2 < m'.2
      · rw [if_pos hlt] at h
        simp only [Option.some.injEq, Prod.mk.injEq] at h
        obtain ⟨hm, _⟩ := h
        subst hm
        exact List.mem_cons_of_mem x (ih m' rest' hx)
      · rw [if_neg hlt] at h
        simp only [Option.some.injEq, Prod.mk.injEq] at h
        obtain ⟨hm, _⟩ := h
        subst hm
        exact List.mem_cons_self x xs

/-- The rest of the queue after a pop is a sub-collection of the queue. -/
theorem popMax_rest_subset : ∀ (q : EventQueue) (m : Event × ℚ) (rest : EventQueue),
    popMax q = some (m, rest) → ∀ ep ∈ rest, ep ∈ q := by
  intro q
  induction q with
  | nil => intro m rest h; simp [popMax] at h
  | cons x xs ih =>
    intro m rest h ep hep
    unfold popMax at h
    cases hx : popMax xs with
    | none =>
      rw [hx] at h
      dsimp only at h
      simp only [Option.some.injEq, Prod.mk.injEq] at h
      obtain ⟨_, hrest⟩ := h
      subst hrest
      simp at hep
    | some p =>
      obtain ⟨m', rest'⟩ := p
      rw [hx] at h
      dsimp only at h
      by_cases hlt : x.2 < m'.2
      · rw [if_pos hlt] at h
        simp only [Option.some.injEq, Prod.mk.injEq] at h
        obtain ⟨_, hrest⟩ := h
        subst hrest
        rcases List.mem_cons.mp hep with he | he
        · exact List.mem_cons.mpr (Or.inl he)
        · exact List.mem_cons_of_mem x (ih m' rest' hx ep he)
      · rw [if_neg hlt] at h
        simp only [Option.some.injEq, Prod.mk.injEq] at h
        obtain ⟨_, hrest⟩ := h
        subst hrest
        exact List.mem_cons_of_mem x hep

/-- push preserves an upper bound on the priorities provided the new
priority respects it. -/
theorem EQpush_bound (q : EventQueue) (e : Event) (pri B : ℚ)
    (hq : ∀ ep ∈ q, ep.2 ≤ B) (hpri : pri ≤ B) :
    ∀ ep ∈ EQpush q e pri, ep.2 ≤ B := by
  intro ep hep
  unfold EQpush at hep
  split at hep
  · obtain ⟨orig, horig, heq⟩ := List.mem_map.mp hep
    by_cases he : orig.1 = e
    · rw [if_pos he] at heq
      subst heq
      exact hpri
    · rw [if_neg he] at heq
      subst heq
      exact hq orig horig
  · rcases List.mem_append.mp hep with he | he
    · exact hq ep he
    · simp at he
      subst he
      exact hpri

/-- remove preserves any upper bound on the priorities. -/
theorem EQremove_bound (q : EventQueue) (e : Event) (B : ℚ)
    (hq : ∀ ep ∈ q, ep.2 ≤ B) :
    ∀ ep ∈ EQremove q e, ep.2 ≤ B := by
  intro ep hep
  exact hq ep (List.mem_of_mem_filter hep)

/-- check_circle_event only ever pushes a priority at or below the sweep
coordinate, so it preserves any queue bound that dominates the sweep. -/
theorem check_circle_event_bound (b : Beachline) (i : ℕ) (q : EventQueue) (yl B : ℚ)
    (q' : EventQueue) (h : b.check_circle_event i q yl = some q')
    (hq : ∀ ep ∈ q, ep.2 ≤ B) (hyl : yl ≤ B) :
    ∀ ep ∈ q', ep.2 ≤ B := by
  unfold Beachline.check_circle_event at h
  simp only [Option.pure_def, Option.bind_eq_bind, Option.bind_eq_some] at h
  obtain ⟨p, hp, lres, hl, rres, hr, xlres, hxl, xrres, hxr, hmatch⟩ := h
  cases lres with
  | none =>
    dsimp only at hmatch
    simp only [Option.some.injEq] at hmatch
    subst hmatch
    exact hq
  | some l =>
    cases rres with
    | none =>
      dsimp only at hmatch
      simp only [Option.some.injEq] at hmatch
      subst hmatch
      exact hq
    | some r =>
      dsimp only at hmatch
      by_cases hsite : l.1.site = r.1.site
      · rw [if_pos hsite] at hmatch
        simp only [Option.some.injEq] at hmatch
        subst hmatch
        exact hq
      · rw [if_neg hsite] at hmatch
        simp only [Option.pure_def, Option.bind_eq_bind, Option.bind_eq_some] at hmatch
        obtain ⟨xl, hxleq, xr, hxreq, hmatch⟩ := hmatch
        cases hint : intersection xl.1.origin xl.1.direction xr.1.origin xr.1.direction with
        | none =>
          rw [hint] at hmatch
          dsimp only at hmatch
          simp only [Option.some.injEq] at hmatch
          subst hmatch
          exact hq
        | some s =>
          rw [hint] at hmatch
          dsimp only at hmatch
          by_cases htop : yl < s.y - distance p.site s
          · rw [if_pos htop] at hmatch
            simp only [Option.some.injEq] at hmatch
            subst hmatch
            exact hq
          · rw [if_neg htop] at hmatch
            simp only [Option.some.injEq] at hmatch
            subst hmatch
            exact EQpush_bound q (Event.Circle i) (s.y - distance p.site s) B hq
              (le_trans (not_lt.mp htop) hyl)

/-- replace_arc's two circle checks preserve a queue bound dominating the
sweep coordinate. -/
theorem replace_arc_bound (b : Beachline) (arc_idx : ℕ) (a : Arc) (xl : BreakPoint)
    (bb : Arc) (xr : BreakPoint) (c : Arc) (q : EventQueue) (yl B : ℚ)
    (res : Beachline × EventQueue)
    (h : b.replace_arc arc_idx a xl bb xr c q yl = some res)
    (hq : ∀ ep ∈ q, ep.2 ≤ B) (hyl : yl ≤ B) :
    ∀ ep ∈ res.2, ep.2 ≤ B := by
  unfold Beachline.replace_arc at h
  simp only [Option.pure_def, Option.bind_eq_bind, Option.bind_eq_some] at h
  obtain ⟨old, hold, b1, hb1, q1, hq1, q2, hq2, hres⟩ := h
  simp only [Option.some.injEq] at hres
  subst hres
  exact check_circle_event_bound b1 (b.nodes.length + 4) q1 yl B q2 hq2
    (check_circle_event_bound b1 b.nodes.length q yl B q1 hq1 hq hyl) hyl

/-- replace_breakpoint's two circle checks preserve a queue bound
dominating the sweep coordinate. -/
theorem replace_breakpoint_bound (b : Beachline) (xl_idx p_idx xr_idx : ℕ)
    (x : BreakPoint) (q : EventQueue) (yl B : ℚ) (res : Beachline × EventQueue)
    (h : b.replace_breakpoint xl_idx p_idx xr_idx x q yl = some res)
    (hq : ∀ ep ∈ q, ep.2 ≤ B) (hyl : yl ≤ B) :
    ∀ ep ∈ res.2, ep.2 ≤ B := by
  unfold Beachline.replace_breakpoint at h
  obtain ⟨lres, hlres, h⟩ := Option.bind_eq_some.mp h
  obtain ⟨l, hl, h⟩ := Option.bind_eq_some.mp h
  obtain ⟨rres, hrres, h⟩ := Option.bind_eq_some.mp h
  obtain ⟨r, hr, h⟩ := Option.bind_eq_some.mp h
  obtain ⟨pent, hpent, h⟩ := Option.bind_eq_some.mp h
  obtain ⟨pidx, hpidx, h⟩ := Option.bind_eq_some.mp h
  obtain ⟨oe, hoe, h⟩ := Option.bind_eq_some.mp h
  obtain ⟨pe, hpe, h⟩ := Option.bind_eq_some.mp h
  obtain ⟨sib, hsib, h⟩ := Option.bind_eq_some.mp h
  obtain ⟨gidx, hgidx, h⟩ := Option.bind_eq_some.mp h
  obtain ⟨ge, hge, h⟩ := Option.bind_eq_some.mp h
  obtain ⟨gl, hgl, h⟩ := Option.bind_eq_some.mp h
  obtain ⟨b2, hb2, h⟩ := Option.bind_eq_some.mp h
  obtain ⟨q1, hq1, h⟩ := Option.bind_eq_some.mp h
  obtain ⟨q2, hq2, hres⟩ := Option.bind_eq_some.mp h
  simp only [Option.some.injEq] at hres
  subst hres
  exact check_circle_event_bound b2 r.2 q1 yl B q2 hq2
    (check_circle_event_bound b2 l.2 q yl B q1 hq1 hq hyl) hyl

/-- A Site event's handler preserves a queue bound dominating the sweep
coordinate. -/
theorem add_parabola_bound (site : Point) (yl B : ℚ) (q : EventQueue) (b : Beachline)
    (res : EventQueue × Beachline) (h : add_parabola site yl q b = some res)
    (hq : ∀ ep ∈ q, ep.2 ≤ B) (hyl : yl ≤ B) :
    ∀ ep ∈ res.1, ep.2 ≤ B := by
  unfold add_parabola at h
  simp only [Option.pure_def, Option.bind_eq_bind, Option.bind_eq_some] at h
  obtain ⟨found, hfound, hmatch⟩ := h
  cases found with
  | none =>
    dsimp only at hmatch
    simp only [Option.pure_def, Option.bind_eq_bind, Option.bind_eq_some] at hmatch
    obtain ⟨b1, hb1, hres⟩ := hmatch
    simp only [Option.some.injEq] at hres
    subst hres
    exact hq
  | some ai =>
    obtain ⟨arc, arc_idx⟩ := ai
    dsimp only at hmatch
    simp only [Option.pure_def, Option.bind_eq_bind, Option.bind_eq_some] at hmatch
    obtain ⟨pr, hpr, hres⟩ := hmatch
    simp only [Option.some.injEq] at hres
    subst hres
    have hrem := EQremove_bound q (Event.Circle arc_idx) B hq
    exact replace_arc_bound b arc_idx _ _ _ _ _ _ yl B pr hpr hrem hyl

/-- A Circle event's handler preserves a queue bound dominating the sweep
coordinate. -/
theorem remove_parabola_bound (arc_idx : ℕ) (q : EventQueue) (b : Beachline)
    (segs : List Segment) (yl B : ℚ) (res : EventQueue × Beachline × List Segment)
    (h : remove_parabola arc_idx q b segs yl = some res)
    (hq : ∀ ep ∈ q, ep.2 ≤ B) (hyl : yl ≤ B) :
    ∀ ep ∈ res.1, ep.2 ≤ B := by
  unfold remove_parabola at h
  simp only [Option.pure_def, Option.bind_eq_bind, Option.bind_eq_some] at h
  obtain ⟨p, hp, lRes, hl, lp, hlp, rRes, hr, rp, hrp, s, hs, xlRes, hxl, xlp, hxlp,
    xrRes, hxr, xrp, hxrp, br, hbr, hres⟩ := h
  simp only [Option.some.injEq] at hres
  subst hres
  have h1 := EQremove_bound q (Event.Circle lp.2) B hq
  have h2 := EQremove_bound _ (Event.Circle rp.2) B h1
  exact replace_breakpoint_bound b xlp.2 arc_idx xrp.2 _ _ yl B br hbr h2 hyl

/-- One loop body preserves a queue bound dominating the popped
priority. -/
theorem sweepStep_bound (e : Event) (yl B : ℚ) (st st' : SweepState)
    (h : sweepStep e yl st = some st')
    (hq : ∀ ep ∈ st.eq, ep.2 ≤ B) (hyl : yl ≤ B) :
    ∀ ep ∈ st'.eq, ep.2 ≤ B := by
  cases e with
  | Site site =>
    unfold sweepStep at h
    simp only [Option.pure_def, Option.bind_eq_bind, Option.bind_eq_some] at h
    obtain ⟨pr, hpr, hst⟩ := h
    simp only [Option.some.injEq] at hst
    subst hst
    exact add_parabola_bound site yl B st.eq st.beachline pr hpr hq hyl
  | Circle arc_idx =>
    unfold sweepStep at h
    simp only [Option.pure_def, Option.bind_eq_bind, Option.bind_eq_some] at h
    obtain ⟨pr, hpr, hst⟩ := h
    simp only [Option.some.injEq] at hst
    subst hst
    exact remove_parabola_bound arc_idx st.eq st.beachline st.segments yl B pr hpr hq hyl

/-- The loop body never touches the ghost trace of popped events. -/
theorem sweepStep_popped (e : Event) (yl : ℚ) (st st' : SweepState)
    (h : sweepStep e yl st = some st') : st'.popped = st.popped := by
  cases e with
  | Site site =>
    unfold sweepStep at h
    simp only [Option.pure_def, Option.bind_eq_bind, Option.bind_eq_some] at h
    obtain ⟨pr, hpr, hst⟩ := h
    simp only [Option.some.injEq] at hst
    subst hst
    rfl
  | Circle arc_idx =>
    unfold sweepStep at h
    simp only [Option.pure_def, Option.bind_eq_bind, Option.bind_eq_some] at h
    obtain ⟨pr, hpr, hst⟩ := h
    simp only [Option.some.injEq] at hst
    subst hst
    rfl

/-- Loop invariant: if the popped trace is non-increasing and dominates
every queued priority, it stays non-increasing for the rest of the run. -/
theorem sweepSteps_popped_inv (fuel : ℕ) :
    ∀ st st', sweepSteps fuel st = some st' →
      List.Chain' (fun a b : ℚ => b ≤ a) (st.popped.map Prod.snd) →
      (∀ bLast, (st.popped.map Prod.snd).getLast? = some bLast →
        ∀ ep ∈ st.eq, ep.2 ≤ bLast) →
      List.Chain' (fun a b : ℚ => b ≤ a) (st'.popped.map Prod.snd) := by
  induction fuel with
  | zero =>
    intro st st' h hch hbd
    unfold sweepSteps at h
    simp only [Option.some.injEq] at h
    subst h
    exact hch
  | succ n ih =>
    intro st st' h hch hbd
    unfold sweepSteps at h
    cases hpop : popMax st.eq with
    | none =>
      rw [hpop] at h
      simp only [Option.some.injEq] at h
      subst h
      exact hch
    | some m =>
      rw [hpop] at h
      obtain ⟨⟨e, yl⟩, rest⟩ := m
      simp only [Option.pure_def, Option.bind_eq_bind, Option.bind_eq_some] at h
      obtain ⟨st1, hst1, hrun⟩ := h
      have hmem := popMax_mem st.eq (e, yl) rest hpop
      have hmax := popMax_max st.eq (e, yl) rest hpop
      have hsub := popMax_rest_subset st.eq (e, yl) rest hpop
      have hch1 : List.Chain' (fun a b : ℚ => b ≤ a)
          ((st.popped ++ [(e, yl)]).map Prod.snd) := by
        rw [List.map_append]
        apply List.chain'_append.mpr
        refine ⟨hch, List.chain'_singleton _, ?_⟩
        intro x hx y hy
        simp only [List.map_cons, List.map_nil, List.head?_cons, Option.mem_def,
          Option.some.injEq] at hy
        subst hy
        exact hbd x hx (e, yl) hmem
      have hpx := sweepStep_popped e yl _ st1 hst1
      apply ih st1 st' hrun
      · rw [hpx]
        exact hch1
      · intro bLast hlast ep hep
        rw [hpx] at hlast
        have hby : bLast = yl := by
          have : ((st.popped ++ [(e, yl)]).map Prod.snd).getLast? = some yl := by
            rw [List.map_append]
            exact List.getLast?_concat _
          rw [this] at hlast
          exact (Option.some.injEq _ _).mp hlast.symm
        rw [hby]
        exact sweepStep_bound e yl yl
          { st with eq := rest, popped := st.popped ++ [(e, yl)] } st1 hst1
          (fun p hp => hmax p (hsub p hp)) le_rfl ep hep

/-- C8: in every run of the event loop from an initial state, the sequence
of priorities popped from the event queue is non-increasing: Site events
are keyed by their site's y and every Circle event is pushed with a key at
or below the sweep coordinate at which it was pushed, so events fire in
non-increasing sweep-coordinate order. -/
theorem c8_popped_priorities_nonincreasing (fuel : ℕ) (sites : List Point)
    (st' : SweepState) (h : sweepSteps fuel (initState sites) = some st') :
    List.Chain' (fun a b : ℚ => b ≤ a) (st'.popped.map Prod.snd) := by
  apply sweepSteps_popped_inv fuel (initState sites) st' h
  · exact List.chain'_nil
  · intro bLast hlast
    have hempty : (initState sites).popped = [] := rfl
    rw [hempty] at hlast
    simp at hlast

/-- Witness for c8_popped_priorities_nonincreasing on the two-site run,
whose popped trace is the pair of priorities 500, 500. -/
theorem c8_witness :
    List.Chain' (fun a b : ℚ => b ≤ a) [(500 : ℚ), 500] := by
  cases h : sweepSteps 3 (initState vlSites) with
  | none => exact absurd h (by decide)
  | some st =>
    have h2 := c8_popped_priorities_nonincreasing 3 vlSites st h
    have h4 : (sweepSteps 3 (initState vlSites)).map
        (fun s => s.popped.map Prod.snd) = some [(500 : ℚ), 500] := by decide
    rw [h] at h4
    simp only [Option.map_some', Option.some.injEq] at h4
    rw [h4] at h2
    exact h2
